import Mathlib

/-!
Shallow embedding of `src/samples/source/library/mathlib.c` (the `mathlib`
shared library), together with theorems checking the specification's claims
about it.

Modelling conventions:
* C `int` values are modelled as `Int`; theorems that quantify over
  "signed 32-bit integers" carry explicit range hypotheses
  `-2^31 ≤ x < 2^31`.
* The global state (`g_random_seed : unsigned int`, `g_call_count : int`)
  becomes an explicit `LibState` record threaded through every operation,
  mirroring that every public C function first executes `g_call_count++`.
* C `double` values are modelled as `ℚ`.  Every concrete double value a
  claim mentions (`5.5`, `0.0`, ...) is exactly representable and exactly
  computed at the magnitudes involved, so the rational model is faithful
  there.  The `sqrt` call of `mathlib_point_distance` comes from libm,
  outside this repository, and is modelled as an uninterpreted function
  parameter.
* C `%` and `/` on `int` truncate toward zero (`Int.tmod` / `Int.tdiv`);
  where the source only ever applies them to non-negative operands we use
  them directly, and `Int.tdiv`/`Int.emod` coincide there.
* `abs` from `stdlib.h` is undefined behaviour at `INT_MIN`; `cAbs` models
  the ubiquitous two's-complement outcome `abs(INT_MIN) = INT_MIN`.
  Likewise signed multiplication overflow (UB) is modelled as wrapping.
-/

namespace MathlibC

/-- `INT_MAX` for 32-bit `int`. -/
def INT_MAX : Int := 2147483647

/-- `INT_MIN` for 32-bit `int`. -/
def INT_MIN : Int := -2147483648

/-- The global mutable state of the library: `g_random_seed` (an unsigned
32-bit value, so always `< 2^32` in any run) and `g_call_count`. -/
structure LibState where
  seed : Nat
  call_count : Int
deriving DecidableEq, Repr

/-- The `g_call_count++` statement that opens every public operation. -/
def bump (st : LibState) : LibState :=
  { st with call_count := st.call_count + 1 }

/-- `abs` from `stdlib.h`.  `abs(INT_MIN)` is UB in C; two's-complement
implementations return `INT_MIN`, which is what we model. -/
def cAbs (x : Int) : Int :=
  if x = INT_MIN then INT_MIN else |x|

/-- Wrap an integer into signed 32-bit range (two's complement).  Used to
model the (UB) result of a signed multiplication that overflows. -/
def wrap32 (x : Int) : Int :=
  (x + 2147483648) % 4294967296 - 2147483648

/-- `mathlib_version`: returns `VERSION_STRING` and increments the counter. -/
def mathlib_version (st : LibState) : String × LibState :=
  ("1.0.0", bump st)

/-- `mathlib_version_major`: returns `VERSION_MAJOR`; does NOT touch the
counter. -/
def mathlib_version_major (st : LibState) : Int × LibState :=
  (1, st)

/-- `mathlib_version_minor`: returns `VERSION_MINOR`; does NOT touch the
counter. -/
def mathlib_version_minor (st : LibState) : Int × LibState :=
  (0, st)

/-- `mathlib_add`: overflow pre-check, `0` sentinel on predicted overflow. -/
def mathlib_add (a b : Int) (st : LibState) : Int × LibState :=
  let st1 := bump st
  if (b > 0 ∧ a > INT_MAX - b) ∨ (b < 0 ∧ a < INT_MIN - b) then
    (0, st1)
  else
    (a + b, st1)

/-- `mathlib_subtract`: overflow pre-check, `0` sentinel on predicted
overflow. -/
def mathlib_subtract (a b : Int) (st : LibState) : Int × LibState :=
  let st1 := bump st
  if (b < 0 ∧ a > INT_MAX + b) ∨ (b > 0 ∧ a < INT_MIN + b) then
    (0, st1)
  else
    (a - b, st1)

/-- `mathlib_multiply`: magnitude check `abs(b) > INT_MAX / abs(a)` (C `/`
truncates, hence `Int.tdiv`), `0` sentinel when the check fires, otherwise
`a * b` (whose overflow, when the check missed it, is UB modelled as
wrapping). -/
def mathlib_multiply (a b : Int) (st : LibState) : Int × LibState :=
  let st1 := bump st
  if a ≠ 0 ∧ cAbs b > Int.tdiv INT_MAX (cAbs a) then
    (0, st1)
  else
    (wrap32 (a * b), st1)

/-- `mathlib_divide`: doubles modelled as rationals; `0.0` sentinel when the
divisor is zero. -/
def mathlib_divide (a b : ℚ) (st : LibState) : ℚ × LibState :=
  let st1 := bump st
  if b = 0 then (0, st1) else (a / b, st1)

/-- The `for (int i = 2; i <= n && i <= 20; i++) result *= i;` loop of
`mathlib_factorial`.  The loop performs at most 19 iterations (i = 2..20),
so fuel 21 never runs out. -/
def factLoop (n : Int) : Nat → Int → Int → Int
  | 0, _, result => result
  | fuel + 1, i, result =>
    if i ≤ n ∧ i ≤ 20 then factLoop n fuel (i + 1) (result * i) else result

/-- `mathlib_factorial`: `-1` for negative input, `1` for 0 and 1, else the
capped product.  The C result type `long long` never overflows (20! < 2^63),
so plain `Int` is faithful. -/
def mathlib_factorial (n : Int) (st : LibState) : Int × LibState :=
  let st1 := bump st
  if n < 0 then (-1, st1)
  else if n = 0 ∨ n = 1 then (1, st1)
  else (factLoop n 21 2 1, st1)

/-- The `for (int i = 2; i <= n; i++)` loop of `mathlib_fibonacci`, with the
iteration count precomputed as fuel.  (The C `int` additions overflow — UB —
for n ≥ 47; no claim touches those values and we model unbounded ints.) -/
def fibLoop : Nat → Int → Int → Int
  | 0, _, b => b
  | k + 1, a, b => fibLoop k b (a + b)

/-- `mathlib_fibonacci`: `0` for `n ≤ 0`, `1` for `n = 1`, else the standard
iterative recurrence. -/
def mathlib_fibonacci (n : Int) (st : LibState) : Int × LibState :=
  let st1 := bump st
  if n ≤ 0 then (0, st1)
  else if n = 1 then (1, st1)
  else (fibLoop (n.toNat - 1) 0 1, st1)

/-- The Euclidean `while (b != 0)` loop of `mathlib_gcd`, on the
(non-negative) values produced by `abs`. -/
def gcdLoop (a b : Nat) : Nat :=
  if b = 0 then a else gcdLoop b (a % b)
termination_by b
decreasing_by exact Nat.mod_lt _ (by omega)

/-- `mathlib_gcd`: Euclid on `abs(a)`, `abs(b)`.  (For `INT_MIN` inputs the
C `abs` is UB; the loop is modelled on the natural-number magnitudes.) -/
def mathlib_gcd (a b : Int) (st : LibState) : Int × LibState :=
  let st1 := bump st
  ((gcdLoop a.natAbs b.natAbs : Int), st1)

/-- The `for (int i = 5; i * i <= n; i += 6)` trial-division loop of
`mathlib_is_prime`.  The guard's product `i * i` is a 32-bit `int`
multiplication in C, which overflows (UB) once `i` reaches 46343 —
reachable whenever `n ≥ 46337² = 2147117569`; per the conventions above the
overflow is modelled as two's-complement wrapping (`wrap32`).  The C loop
has no fuel; here the fuel only bounds the iteration count, and
357913941 iterations always suffice on the reachable inputs (`3 < n`, `n`
not divisible by 2 or 3, `n ≤ INT_MAX`): the loop can never run past
`i = 2147483645`, where `i = n` or `i + 2 = n` makes a divisibility check
fire.  All operands of `%` on this path are positive, where C `%` agrees
with `Int.emod`. -/
def primeLoop (n : Int) : Nat → Int → Bool
  | 0, _ => true
  | fuel + 1, i =>
    if wrap32 (i * i) ≤ n then
      if n % i = 0 ∨ n % (i + 2) = 0 then false
      else primeLoop n fuel (i + 6)
    else true

/-- `mathlib_is_prime` (C returns `int` 0/1, modelled as `Bool`). -/
def mathlib_is_prime (n : Int) (st : LibState) : Bool × LibState :=
  let st1 := bump st
  if n ≤ 1 then (false, st1)
  else if n ≤ 3 then (true, st1)
  else if n % 2 = 0 ∨ n % 3 = 0 then (false, st1)
  else (primeLoop n 357913941 5, st1)

/-- `mathlib_array_sum`.  A C array plus length becomes
`Option (List Int) × Int`: `none` is the null pointer.  The summation loop
reads `array[0..size-1]`; when `size` exceeds the actual length that read is
out of bounds (UB), modelled by `List.take`.  The `int` sum is unguarded
(overflow is UB), modelled as exact integers. -/
def mathlib_array_sum (array : Option (List Int)) (size : Int)
    (st : LibState) : Int × LibState :=
  let st1 := bump st
  match array with
  | none => (0, st1)
  | some l =>
    if size ≤ 0 then (0, st1)
    else ((l.take size.toNat).foldl (fun s x => s + x) 0, st1)

/-- `mathlib_array_average`: increments the counter, then (for valid input)
calls `mathlib_array_sum` — which increments the counter again — and divides
by `size` as a double (exact as a rational at the claimed inputs). -/
def mathlib_array_average (array : Option (List Int)) (size : Int)
    (st : LibState) : ℚ × LibState :=
  let st1 := bump st
  match array with
  | none => (0, st1)
  | some l =>
    if size ≤ 0 then (0, st1)
    else
      let p := mathlib_array_sum (some l) size st1
      (((p.1 : ℚ) / (size : ℚ)), p.2)

/-- The body of `if (array[i] > max) max = array[i];`. -/
def maxStep (m x : Int) : Int := if x > m then x else m

/-- The body of `if (array[i] < min) min = array[i];`. -/
def minStep (m x : Int) : Int := if x < m then x else m

/-- `mathlib_array_max`: `INT_MIN` sentinel for null/empty, else the fold of
`maxStep` over the elements, seeded with `array[0]` (reading `array[0]` of a
zero-length allocation is UB, modelled by `headI`). -/
def mathlib_array_max (array : Option (List Int)) (size : Int)
    (st : LibState) : Int × LibState :=
  let st1 := bump st
  match array with
  | none => (INT_MIN, st1)
  | some l =>
    if size ≤ 0 then (INT_MIN, st1)
    else
      let elems := l.take size.toNat
      (elems.tail.foldl maxStep elems.headI, st1)

/-- `mathlib_array_min`: `INT_MAX` sentinel for null/empty, else the fold of
`minStep` seeded with `array[0]`. -/
def mathlib_array_min (array : Option (List Int)) (size : Int)
    (st : LibState) : Int × LibState :=
  let st1 := bump st
  match array with
  | none => (INT_MAX, st1)
  | some l =>
    if size ≤ 0 then (INT_MAX, st1)
    else
      let elems := l.take size.toNat
      (elems.tail.foldl minStep elems.headI, st1)

/-- `mathlib_apply_operation`: null callback returns the value unchanged. -/
def mathlib_apply_operation (value : Int) (operation : Option (Int → Int))
    (st : LibState) : Int × LibState :=
  let st1 := bump st
  match operation with
  | none => (value, st1)
  | some f => (f value, st1)

/-- `mathlib_set_global_seed`: stores the (unsigned 32-bit) argument. -/
def mathlib_set_global_seed (seed : Nat) (st : LibState) : LibState :=
  let st1 := bump st
  { st1 with seed := seed }

/-- `mathlib_get_global_seed`. -/
def mathlib_get_global_seed (st : LibState) : Nat × LibState :=
  let st1 := bump st
  (st1.seed, st1)

/-- `RAND_MAX` of the platform C library (external to this repository); the
spec pins it to `2^31 - 1`, glibc's value. -/
def RAND_MAX : Nat := 2147483647

/-- `mathlib_random`: the LCG step
`g_random_seed = (g_random_seed * 1103515245 + 12345) & 0x7fffffff;`
computed in unsigned 32-bit arithmetic (wrap modulo `2^32`, then the mask),
returning `(int)(g_random_seed % RAND_MAX)`. -/
def mathlib_random (st : LibState) : Int × LibState :=
  let st1 := bump st
  let s := ((st1.seed * 1103515245 + 12345) % 4294967296) &&& 0x7fffffff
  ((s % RAND_MAX : Nat), { st1 with seed := s })

/-- `MathPoint`: two doubles, modelled as rationals. -/
structure MathPoint where
  x : ℚ
  y : ℚ
deriving DecidableEq, Repr

/-- `mathlib_point_distance`: `-1.0` when either pointer is null, else
`sqrt(dx*dx + dy*dy)`.  `sqrt` is libm's, external to the repository, and is
passed in as an uninterpreted function `sq`. -/
def mathlib_point_distance (sq : ℚ → ℚ) (p1 p2 : Option MathPoint)
    (st : LibState) : ℚ × LibState :=
  let st1 := bump st
  match p1, p2 with
  | some q1, some q2 =>
    let dx := q2.x - q1.x
    let dy := q2.y - q1.y
    (sq (dx * dx + dy * dy), st1)
  | _, _ => (-1, st1)

/-- `mathlib_get_call_count`: the hidden diagnostic reader; no
`g_call_count++`, no state change at all. -/
def mathlib_get_call_count (st : LibState) : Int × LibState :=
  (st.call_count, st)

/-- One public API call with its arguments, for stating properties about
arbitrary sequences of calls. -/
inductive Op where
  | version
  | version_major
  | version_minor
  | add (a b : Int)
  | subtract (a b : Int)
  | multiply (a b : Int)
  | divide (a b : ℚ)
  | factorial (n : Int)
  | fibonacci (n : Int)
  | gcd (a b : Int)
  | is_prime (n : Int)
  | array_sum (array : Option (List Int)) (size : Int)
  | array_average (array : Option (List Int)) (size : Int)
  | array_max (array : Option (List Int)) (size : Int)
  | array_min (array : Option (List Int)) (size : Int)
  | apply_operation (value : Int) (operation : Option (Int → Int))
  | set_seed (seed : Nat)
  | get_seed
  | random
  | point_distance (p1 p2 : Option MathPoint)

/-- The state after one call (`sq` interprets libm's `sqrt`). -/
def runOp (sq : ℚ → ℚ) (op : Op) (st : LibState) : LibState :=
  match op with
  | .version => (mathlib_version st).2
  | .version_major => (mathlib_version_major st).2
  | .version_minor => (mathlib_version_minor st).2
  | .add a b => (mathlib_add a b st).2
  | .subtract a b => (mathlib_subtract a b st).2
  | .multiply a b => (mathlib_multiply a b st).2
  | .divide a b => (mathlib_divide a b st).2
  | .factorial n => (mathlib_factorial n st).2
  | .fibonacci n => (mathlib_fibonacci n st).2
  | .gcd a b => (mathlib_gcd a b st).2
  | .is_prime n => (mathlib_is_prime n st).2
  | .array_sum a s => (mathlib_array_sum a s st).2
  | .array_average a s => (mathlib_array_average a s st).2
  | .array_max a s => (mathlib_array_max a s st).2
  | .array_min a s => (mathlib_array_min a s st).2
  | .apply_operation v f => (mathlib_apply_operation v f st).2
  | .set_seed s => mathlib_set_global_seed s st
  | .get_seed => (mathlib_get_global_seed st).2
  | .random => (mathlib_random st).2
  | .point_distance p1 p2 => (mathlib_point_distance sq p1 p2 st).2

/-- The state after a sequence of calls. -/
def runOps (sq : ℚ → ℚ) (ops : List Op) (st : LibState) : LibState :=
  ops.foldl (fun s op => runOp sq op s) st

/-- The list of outputs of `k` successive `mathlib_random` calls. -/
def randomSeq : Nat → LibState → List Int
  | 0, _ => []
  | k + 1, st =>
    let p := mathlib_random st
    p.1 :: randomSeq k p.2

/-! ### Helper lemmas -/

/-- The unsigned-32 multiply-add followed by the `0x7fffffff` mask is
reduction modulo `2^31`. -/
lemma mask31_of_mod32 (x : Nat) :
    (x % 4294967296) &&& 0x7fffffff = x % 2 ^ 31 := by
  rw [show (0x7fffffff : Nat) = 2 ^ 31 - 1 by norm_num,
    Nat.and_pow_two_sub_one_eq_mod, Nat.mod_mod_of_dvd]
  exact Dvd.intro 2 rfl

/-- `randomSeq` depends only on the seed component of the state. -/
lemma randomSeq_seed_only :
    ∀ (k : Nat) (st1 st2 : LibState), st1.seed = st2.seed →
      randomSeq k st1 = randomSeq k st2 := by
  intro k
  induction k with
  | zero => intro st1 st2 _; rfl
  | succ k ih =>
    intro st1 st2 h
    simp only [randomSeq, mathlib_random, bump, h]
    exact congrArg _ (ih _ _ rfl)

/-- The running max never decreases below its start value. -/
lemma foldl_maxStep_init_le :
    ∀ (l : List Int) (m : Int), m ≤ l.foldl maxStep m := by
  intro l
  induction l with
  | nil => intro m; exact le_refl m
  | cons x t ih =>
    intro m
    refine le_trans ?_ (ih (maxStep m x))
    simp only [maxStep]
    split_ifs with h
    · omega
    · exact le_refl m

/-- The running max is the start value or an element of the list. -/
lemma foldl_maxStep_mem :
    ∀ (l : List Int) (m : Int),
      l.foldl maxStep m = m ∨ l.foldl maxStep m ∈ l := by
  intro l
  induction l with
  | nil => intro m; exact Or.inl rfl
  | cons x t ih =>
    intro m
    simp only [List.foldl_cons]
    rcases ih (maxStep m x) with h | h
    · rw [h]
      simp only [maxStep]
      split_ifs with hx
      · exact Or.inr (List.mem_cons_self x t)
      · exact Or.inl rfl
    · exact Or.inr (List.mem_cons_of_mem x h)

/-- Every element of the list is bounded by the running max. -/
lemma foldl_maxStep_le :
    ∀ (l : List Int) (m x : Int), x ∈ l → x ≤ l.foldl maxStep m := by
  intro l
  induction l with
  | nil => intro m x hx; cases hx
  | cons y t ih =>
    intro m x hx
    simp only [List.foldl_cons]
    rcases List.mem_cons.mp hx with rfl | hxt
    · refine le_trans ?_ (foldl_maxStep_init_le t (maxStep m x))
      simp only [maxStep]
      split_ifs with h <;> omega
    · exact ih (maxStep m y) x hxt

/-- The running min never increases above its start value. -/
lemma foldl_minStep_le_init :
    ∀ (l : List Int) (m : Int), l.foldl minStep m ≤ m := by
  intro l
  induction l with
  | nil => intro m; exact le_refl m
  | cons x t ih =>
    intro m
    refine le_trans (ih (minStep m x)) ?_
    simp only [minStep]
    split_ifs with h
    · omega
    · exact le_refl m

/-- The running min is the start value or an element of the list. -/
lemma foldl_minStep_mem :
    ∀ (l : List Int) (m : Int),
      l.foldl minStep m = m ∨ l.foldl minStep m ∈ l := by
  intro l
  induction l with
  | nil => intro m; exact Or.inl rfl
  | cons x t ih =>
    intro m
    simp only [List.foldl_cons]
    rcases ih (minStep m x) with h | h
    · rw [h]
      simp only [minStep]
      split_ifs with hx
      · exact Or.inr (List.mem_cons_self x t)
      · exact Or.inl rfl
    · exact Or.inr (List.mem_cons_of_mem x h)

/-- The running min bounds every element of the list. -/
lemma foldl_minStep_ge :
    ∀ (l : List Int) (m x : Int), x ∈ l → l.foldl minStep m ≤ x := by
  intro l
  induction l with
  | nil => intro m x hx; cases hx
  | cons y t ih =>
    intro m x hx
    simp only [List.foldl_cons]
    rcases List.mem_cons.mp hx with rfl | hxt
    · refine le_trans (foldl_minStep_le_init t (minStep m x)) ?_
      simp only [minStep]
      split_ifs with h <;> omega
    · exact ih (minStep m y) x hxt

/-! ### Claim theorems -/

/-- C5: for 32-bit operands, `mathlib_add` returns `a + b` exactly when the
sum is representable and the sentinel `0` on predicted overflow, and
`mathlib_subtract` likewise for `a - b`; in particular
`add(INT_MAX, 1) = 0` and `add(2, 3) = 5`. -/
theorem add_subtract_exact (a b : Int) (st : LibState)
    (ha1 : INT_MIN ≤ a) (ha2 : a ≤ INT_MAX)
    (hb1 : INT_MIN ≤ b) (hb2 : b ≤ INT_MAX) :
    ((mathlib_add a b st).1 =
      if INT_MIN ≤ a + b ∧ a + b ≤ INT_MAX then a + b else 0) ∧
    ((mathlib_subtract a b st).1 =
      if INT_MIN ≤ a - b ∧ a - b ≤ INT_MAX then a - b else 0) ∧
    (mathlib_add INT_MAX 1 st).1 = 0 ∧
    (mathlib_add 2 3 st).1 = 5 := by
  simp only [INT_MAX, INT_MIN] at ha1 ha2 hb1 hb2
  refine ⟨?_, ?_, ?_, ?_⟩
  · simp only [mathlib_add, INT_MAX, INT_MIN]
    split_ifs with h1 h2 <;> first | rfl | (exfalso; omega)
  · simp only [mathlib_subtract, INT_MAX, INT_MIN]
    split_ifs with h1 h2 <;> first | rfl | (exfalso; omega)
  · simp only [mathlib_add, INT_MAX, INT_MIN]
    norm_num
  · simp only [mathlib_add, INT_MAX, INT_MIN]
    norm_num

/-- Witness for C5 at `a = 2`, `b = 3`. -/
theorem add_subtract_exact_witness :
    ((mathlib_add 2 3 ⟨12345, 0⟩).1 =
      if INT_MIN ≤ (2 + 3 : Int) ∧ (2 + 3 : Int) ≤ INT_MAX
      then (2 + 3 : Int) else 0) ∧
    ((mathlib_subtract 2 3 ⟨12345, 0⟩).1 =
      if INT_MIN ≤ (2 - 3 : Int) ∧ (2 - 3 : Int) ≤ INT_MAX
      then (2 - 3 : Int) else 0) ∧
    (mathlib_add INT_MAX 1 ⟨12345, 0⟩).1 = 0 ∧
    (mathlib_add 2 3 ⟨12345, 0⟩).1 = 5 :=
  add_subtract_exact 2 3 ⟨12345, 0⟩ (by decide) (by decide) (by decide)
    (by decide)

/-- C4: empty or absent arrays give `sum = 0`, `average = 0`,
`max = INT_MIN`, `min = INT_MAX`; on `[1..10]` with length 10 they give
`55`, `5.5`, `10`, `1`. -/
theorem array_aggregate_values (st : LibState) :
    (mathlib_array_sum none 3 st).1 = 0 ∧
    (mathlib_array_sum (some []) 0 st).1 = 0 ∧
    (mathlib_array_average none 3 st).1 = 0 ∧
    (mathlib_array_average (some []) 0 st).1 = 0 ∧
    (mathlib_array_max none 3 st).1 = INT_MIN ∧
    (mathlib_array_max (some []) 0 st).1 = INT_MIN ∧
    (mathlib_array_min none 3 st).1 = INT_MAX ∧
    (mathlib_array_min (some []) 0 st).1 = INT_MAX ∧
    (mathlib_array_sum (some [1, 2, 3, 4, 5, 6, 7, 8, 9, 10]) 10 st).1 = 55 ∧
    (mathlib_array_average (some [1, 2, 3, 4, 5, 6, 7, 8, 9, 10]) 10 st).1
      = 5.5 ∧
    (mathlib_array_max (some [1, 2, 3, 4, 5, 6, 7, 8, 9, 10]) 10 st).1 = 10 ∧
    (mathlib_array_min (some [1, 2, 3, 4, 5, 6, 7, 8, 9, 10]) 10 st).1 = 1 := by
  refine ⟨rfl, rfl, rfl, rfl, rfl, rfl, rfl, rfl, rfl, ?_, rfl, rfl⟩
  norm_num [mathlib_array_average, mathlib_array_sum, bump,
    show ((List.take (Int.toNat 10)
        [1, 2, 3, 4, 5, 6, 7, 8, 9, 10]).foldl (fun s x => s + x) 0 : Int)
      = 55 from rfl]

/-- C9: `set_seed` overwrites the seed field and a subsequent `get_seed`
returns exactly that value (and `get_seed` itself leaves the seed
unchanged); in particular after `set_seed(42)`, `get_seed() = 42`. -/
theorem seed_roundtrip (s : Nat) (st : LibState) (_hs : s < 4294967296) :
    (mathlib_set_global_seed s st).seed = s ∧
    (mathlib_get_global_seed (mathlib_set_global_seed s st)).1 = s ∧
    (mathlib_get_global_seed st).2.seed = st.seed ∧
    (mathlib_get_global_seed (mathlib_set_global_seed 42 st)).1 = 42 :=
  ⟨rfl, rfl, rfl, rfl⟩

/-- Witness for C9 at `s = 42`. -/
theorem seed_roundtrip_witness :
    (mathlib_set_global_seed 42 ⟨12345, 0⟩).seed = 42 ∧
    (mathlib_get_global_seed (mathlib_set_global_seed 42 ⟨12345, 0⟩)).1
      = 42 ∧
    (mathlib_get_global_seed ⟨12345, 0⟩).2.seed = (⟨12345, 0⟩ : LibState).seed ∧
    (mathlib_get_global_seed (mathlib_set_global_seed 42 ⟨12345, 0⟩)).1
      = 42 :=
  seed_roundtrip 42 ⟨12345, 0⟩ (by decide)

/-- C8: every `mathlib_random` call replaces the seed by
`(seed * 1103515245 + 12345) mod 2^31` (the unsigned-32 multiply-add masked
with `0x7fffffff`), returns the new seed reduced modulo `RAND_MAX = 2^31-1`,
and the output sequence after `set_seed(42)` is fully determined by that
seed. -/
theorem random_lcg (st : LibState) :
    (mathlib_random st).2.seed = (st.seed * 1103515245 + 12345) % 2 ^ 31 ∧
    (mathlib_random st).1 =
      ((((st.seed * 1103515245 + 12345) % 2 ^ 31) % RAND_MAX : Nat) : Int) ∧
    ∀ (k : Nat) (st1 st2 : LibState),
      randomSeq k (mathlib_set_global_seed 42 st1) =
      randomSeq k (mathlib_set_global_seed 42 st2) := by
  refine ⟨?_, ?_, ?_⟩
  · simp only [mathlib_random, bump]
    exact mask31_of_mod32 _
  · simp only [mathlib_random, bump]
    rw [mask31_of_mod32]
  · intro k st1 st2
    exact randomSeq_seed_only k _ _ rfl

/-- C10: the hidden `mathlib_get_call_count` returns the current counter
and changes nothing: no increment, seed untouched, consecutive calls agree. -/
theorem get_call_count_pure (st : LibState) :
    (mathlib_get_call_count st).1 = st.call_count ∧
    (mathlib_get_call_count st).2 = st ∧
    (mathlib_get_call_count st).2.seed = st.seed ∧
    (mathlib_get_call_count (mathlib_get_call_count st).2).1 =
      (mathlib_get_call_count st).1 :=
  ⟨rfl, rfl, rfl, rfl⟩

/-- C3 counterexample: on an absent array, `mathlib_array_max` returns
`INT_MIN` (not the claimed maximum representable value `INT_MAX`), and
`mathlib_array_min` returns `INT_MAX` (not the claimed `INT_MIN`): the
claim has the two sentinels swapped. -/
theorem array_sentinels_swapped_cex :
    (mathlib_array_max none 0 ⟨12345, 0⟩).1 = INT_MIN ∧
    (mathlib_array_min none 0 ⟨12345, 0⟩).1 = INT_MAX ∧
    (mathlib_array_max none 0 ⟨12345, 0⟩).1 ≠ INT_MAX ∧
    (mathlib_array_min none 0 ⟨12345, 0⟩).1 ≠ INT_MIN := by
  decide

/-- C3 (amended): for empty or absent input `mathlib_array_max` returns the
MINIMUM representable signed-32 value (`INT_MIN`) as its "no data" sentinel
and `mathlib_array_min` returns the MAXIMUM (`INT_MAX`); for non-empty
input each returns the true maximum (resp. minimum) element. -/
theorem array_max_min_correct (l : List Int) (st : LibState)
    (hne : l ≠ []) :
    (∀ size : Int, (mathlib_array_max none size st).1 = INT_MIN) ∧
    (∀ (l2 : List Int) (size : Int), size ≤ 0 →
      (mathlib_array_max (some l2) size st).1 = INT_MIN) ∧
    (∀ size : Int, (mathlib_array_min none size st).1 = INT_MAX) ∧
    (∀ (l2 : List Int) (size : Int), size ≤ 0 →
      (mathlib_array_min (some l2) size st).1 = INT_MAX) ∧
    ((mathlib_array_max (some l) l.length st).1 ∈ l ∧
      ∀ x ∈ l, x ≤ (mathlib_array_max (some l) l.length st).1) ∧
    ((mathlib_array_min (some l) l.length st).1 ∈ l ∧
      ∀ x ∈ l, (mathlib_array_min (some l) l.length st).1 ≤ x) := by
  obtain ⟨y, t, rfl⟩ := List.exists_cons_of_ne_nil hne
  have hsz : ¬ ((y :: t).length : Int) ≤ 0 := by
    simp only [List.length_cons]
    omega
  have htake : List.take ((y :: t).length : Int).toNat (y :: t) = y :: t := by
    rw [Int.toNat_natCast, List.take_length]
  refine ⟨fun _ => rfl, fun _ _ h => ?_, fun _ => rfl, fun _ _ h => ?_,
      ?_, ?_⟩
  · simp only [mathlib_array_max, if_pos h]
  · simp only [mathlib_array_min, if_pos h]
  · simp only [mathlib_array_max, if_neg hsz, htake, List.tail_cons,
      List.headI_cons]
    constructor
    · rcases foldl_maxStep_mem t y with h | h
      · rw [h]; exact List.mem_cons_self y t
      · exact List.mem_cons_of_mem y h
    · intro x hx
      rcases List.mem_cons.mp hx with rfl | hxt
      · exact foldl_maxStep_init_le t x
      · exact foldl_maxStep_le t y x hxt
  · simp only [mathlib_array_min, if_neg hsz, htake, List.tail_cons,
      List.headI_cons]
    constructor
    · rcases foldl_minStep_mem t y with h | h
      · rw [h]; exact List.mem_cons_self y t
      · exact List.mem_cons_of_mem y h
    · intro x hx
      rcases List.mem_cons.mp hx with rfl | hxt
      · exact foldl_minStep_le_init t x
      · exact foldl_minStep_ge t y x hxt

/-- Witness for C3 (amended) on the non-empty list `[3, 1, 4]`. -/
theorem array_max_min_correct_witness :
    (mathlib_array_max (some [3, 1, 4]) ([3, 1, 4] : List Int).length
        ⟨12345, 0⟩).1 ∈ ([3, 1, 4] : List Int) ∧
    (mathlib_array_min (some [3, 1, 4]) ([3, 1, 4] : List Int).length
        ⟨12345, 0⟩).1 ∈ ([3, 1, 4] : List Int) :=
  ⟨(array_max_min_correct [3, 1, 4] ⟨12345, 0⟩ (by decide)).2.2.2.2.1.1,
   (array_max_min_correct [3, 1, 4] ⟨12345, 0⟩ (by decide)).2.2.2.2.2.1⟩

/-- The C magnitude check `abs(b) > INT_MAX / abs(a)` fires exactly when
`|a * b| > INT_MAX`. -/
lemma tdiv_check_iff (a b : Int) (ha : a ≠ 0) :
    (Int.tdiv 2147483647 |a| < |b|) ↔ (2147483647 : ℤ) < |a * b| := by
  rw [Int.abs_eq_natAbs a, Int.abs_eq_natAbs b, Int.abs_eq_natAbs (a * b)]
  rw [show (2147483647 : ℤ) = ((2147483647 : ℕ) : ℤ) from rfl]
  rw [show Int.tdiv ((2147483647 : ℕ) : ℤ) (a.natAbs : ℤ)
      = ((2147483647 / a.natAbs : ℕ) : ℤ) from rfl]
  rw [Int.ofNat_lt, Int.ofNat_lt]
  rw [Nat.div_lt_iff_lt_mul (Nat.pos_of_ne_zero (Int.natAbs_ne_zero.mpr ha))]
  rw [Int.natAbs_mul]
  rw [Nat.mul_comm b.natAbs a.natAbs]

/-- `wrap32` is the identity on in-range values. -/
lemma wrap32_eq_self (x : Int) (h1 : -2147483648 ≤ x)
    (h2 : x ≤ 2147483647) : wrap32 x = x := by
  unfold wrap32
  omega

/-- C2 counterexample: `multiply(2, -2^30)` returns the overflow sentinel
`0` even though the true product `-2^31 = INT_MIN` is representable in
signed 32 bits, so "returns the product whenever it is representable" is
false. -/
theorem multiply_representable_cex :
    (mathlib_multiply 2 (-1073741824) ⟨12345, 0⟩).1 = 0 ∧
    (2 * (-1073741824) : Int) = -2147483648 ∧
    INT_MIN ≤ (2 * (-1073741824) : Int) ∧
    (2 * (-1073741824) : Int) ≤ INT_MAX ∧
    (mathlib_multiply 2 (-1073741824) ⟨12345, 0⟩).1 ≠ 2 * (-1073741824) := by
  decide

/-- C2 (amended): for 32-bit operands other than `INT_MIN` itself,
`mathlib_multiply` returns `a * b` exactly when `|a * b| ≤ INT_MAX` and the
sentinel `0` when `|a * b| > INT_MAX`; the magnitude pre-check thus treats
the one representable product of magnitude `2^31` (`a * b = INT_MIN`) as
overflow too. -/
theorem multiply_checked (a b : Int) (st : LibState)
    (ha1 : INT_MIN < a) (ha2 : a ≤ INT_MAX)
    (hb1 : INT_MIN < b) (hb2 : b ≤ INT_MAX) :
    (mathlib_multiply a b st).1 =
      if |a * b| ≤ INT_MAX then a * b else 0 := by
  simp only [INT_MAX, INT_MIN] at *
  have hA : a ≠ -2147483648 := by omega
  have hB : b ≠ -2147483648 := by omega
  simp only [mathlib_multiply, cAbs, INT_MIN, INT_MAX, if_neg hA, if_neg hB]
  by_cases ha : a = 0
  · subst ha
    simp only [ne_eq, not_true_eq_false, false_and, if_false, zero_mul,
      abs_zero]
    rw [if_pos (by norm_num)]
    exact wrap32_eq_self 0 (by norm_num) (by norm_num)
  · rcases le_or_lt |a * b| 2147483647 with hle | hgt
    · rw [if_pos hle]
      have hcheck : ¬ (Int.tdiv 2147483647 |a| < |b|) := by
        rw [tdiv_check_iff a b ha]
        omega
      rw [if_neg (by
        intro hcontra
        exact hcheck hcontra.2)]
      exact wrap32_eq_self (a * b) (by
          rcases abs_le.mp hle with ⟨h1, _⟩
          omega)
        (by
          rcases abs_le.mp hle with ⟨_, h2⟩
          omega)
    · rw [if_pos (show a ≠ 0 ∧ Int.tdiv 2147483647 |a| < |b| from
        ⟨ha, (tdiv_check_iff a b ha).mpr hgt⟩)]
      rw [if_neg (show ¬ |a * b| ≤ 2147483647 by omega)]

/-- Witness for C2 (amended) at `a = 2`, `b = 3`. -/
theorem multiply_checked_witness :
    (mathlib_multiply 2 3 ⟨12345, 0⟩).1 =
      if |(2 * 3 : Int)| ≤ INT_MAX then (2 * 3 : Int) else 0 :=
  multiply_checked 2 3 ⟨12345, 0⟩ (by decide) (by decide) (by decide)
    (by decide)

/-- One call never decreases the counter. -/
lemma runOp_call_count_le (sq : ℚ → ℚ) (op : Op) (st : LibState) :
    st.call_count ≤ (runOp sq op st).call_count := by
  cases op with
  | version => simp [runOp, mathlib_version, bump]
  | version_major => exact le_refl _
  | version_minor => exact le_refl _
  | add a b =>
    simp only [runOp, mathlib_add]
    split_ifs <;> simp [bump]
  | subtract a b =>
    simp only [runOp, mathlib_subtract]
    split_ifs <;> simp [bump]
  | multiply a b =>
    simp only [runOp, mathlib_multiply]
    split_ifs <;> simp [bump]
  | divide a b =>
    simp only [runOp, mathlib_divide]
    split_ifs <;> simp [bump]
  | factorial n =>
    simp only [runOp, mathlib_factorial]
    split_ifs <;> simp [bump]
  | fibonacci n =>
    simp only [runOp, mathlib_fibonacci]
    split_ifs <;> simp [bump]
  | gcd a b => simp [runOp, mathlib_gcd, bump]
  | is_prime n =>
    simp only [runOp, mathlib_is_prime]
    split_ifs <;> simp [bump]
  | array_sum a s =>
    cases a with
    | none => simp [runOp, mathlib_array_sum, bump]
    | some l =>
      simp only [runOp, mathlib_array_sum]
      split_ifs <;> simp [bump]
  | array_average a s =>
    cases a with
    | none => simp [runOp, mathlib_array_average, bump]
    | some l =>
      simp only [runOp, mathlib_array_average, mathlib_array_sum]
      split_ifs
      · simp [bump]
      · simp [bump]
        omega
  | array_max a s =>
    cases a with
    | none => simp [runOp, mathlib_array_max, bump]
    | some l =>
      simp only [runOp, mathlib_array_max]
      split_ifs <;> simp [bump]
  | array_min a s =>
    cases a with
    | none => simp [runOp, mathlib_array_min, bump]
    | some l =>
      simp only [runOp, mathlib_array_min]
      split_ifs <;> simp [bump]
  | apply_operation v f =>
    cases f <;> simp [runOp, mathlib_apply_operation, bump]
  | set_seed s => simp [runOp, mathlib_set_global_seed, bump]
  | get_seed => simp [runOp, mathlib_get_global_seed, bump]
  | random => simp [runOp, mathlib_random, bump]
  | point_distance p1 p2 =>
    cases p1 <;> cases p2 <;> simp [runOp, mathlib_point_distance, bump]

/-- The counter is non-decreasing along any sequence of calls. -/
lemma runOps_call_count_le (sq : ℚ → ℚ) (ops : List Op) :
    ∀ st : LibState, st.call_count ≤ (runOps sq ops st).call_count := by
  induction ops with
  | nil => intro st; exact le_refl _
  | cons op rest ih =>
    intro st
    exact le_trans (runOp_call_count_le sq op st) (ih (runOp sq op st))

/-- C1 counterexample: a single `mathlib_array_average` call on a valid
non-empty array increments the counter by 2 (once itself, once via its
internal call to `mathlib_array_sum`), not by exactly 1 as claimed. -/
theorem average_double_count_cex :
    (mathlib_array_average (some [5]) 1 ⟨12345, 0⟩).2.call_count = 2 ∧
    (mathlib_array_average (some [5]) 1 ⟨12345, 0⟩).2.call_count ≠
      (⟨12345, 0⟩ : LibState).call_count + 1 := by
  decide

/-- C1 (amended): every public operation increments the call counter by
exactly one, except `version_major`/`version_minor` (which leave it
unchanged) and `array_average`, which on a valid non-empty array increments
it by two — one increment of its own plus one from its internal
`array_sum` call (by one on empty/absent input); consequently `call_count`
is monotonically non-decreasing across any sequence of calls. -/
theorem call_count_discipline (st : LibState) :
    (mathlib_version st).2.call_count = st.call_count + 1 ∧
    (mathlib_version_major st).2.call_count = st.call_count ∧
    (mathlib_version_minor st).2.call_count = st.call_count ∧
    (∀ a b : Int, (mathlib_add a b st).2.call_count = st.call_count + 1) ∧
    (∀ a b : Int,
      (mathlib_subtract a b st).2.call_count = st.call_count + 1) ∧
    (∀ a b : Int,
      (mathlib_multiply a b st).2.call_count = st.call_count + 1) ∧
    (∀ a b : ℚ, (mathlib_divide a b st).2.call_count = st.call_count + 1) ∧
    (∀ n : Int, (mathlib_factorial n st).2.call_count = st.call_count + 1) ∧
    (∀ n : Int, (mathlib_fibonacci n st).2.call_count = st.call_count + 1) ∧
    (∀ a b : Int, (mathlib_gcd a b st).2.call_count = st.call_count + 1) ∧
    (∀ n : Int, (mathlib_is_prime n st).2.call_count = st.call_count + 1) ∧
    (∀ (a : Option (List Int)) (s : Int),
      (mathlib_array_sum a s st).2.call_count = st.call_count + 1) ∧
    (∀ (a : Option (List Int)) (s : Int),
      (mathlib_array_average a s st).2.call_count =
        st.call_count + (if a = none ∨ s ≤ 0 then 1 else 2)) ∧
    (∀ (a : Option (List Int)) (s : Int),
      (mathlib_array_max a s st).2.call_count = st.call_count + 1) ∧
    (∀ (a : Option (List Int)) (s : Int),
      (mathlib_array_min a s st).2.call_count = st.call_count + 1) ∧
    (∀ (v : Int) (f : Option (Int → Int)),
      (mathlib_apply_operation v f st).2.call_count = st.call_count + 1) ∧
    (∀ s : Nat,
      (mathlib_set_global_seed s st).call_count = st.call_count + 1) ∧
    (mathlib_get_global_seed st).2.call_count = st.call_count + 1 ∧
    (mathlib_random st).2.call_count = st.call_count + 1 ∧
    (∀ (sq : ℚ → ℚ) (p1 p2 : Option MathPoint),
      (mathlib_point_distance sq p1 p2 st).2.call_count =
        st.call_count + 1) ∧
    (∀ (sq : ℚ → ℚ) (ops : List Op),
      st.call_count ≤ (runOps sq ops st).call_count) := by
  refine ⟨rfl, rfl, rfl, ?_, ?_, ?_, ?_, ?_, ?_, fun a b => rfl, ?_, ?_,
    ?_, ?_, ?_, ?_, fun s => rfl, rfl, rfl, ?_, ?_⟩
  · intro a b
    simp only [mathlib_add]
    split_ifs <;> rfl
  · intro a b
    simp only [mathlib_subtract]
    split_ifs <;> rfl
  · intro a b
    simp only [mathlib_multiply]
    split_ifs <;> rfl
  · intro a b
    simp only [mathlib_divide]
    split_ifs <;> rfl
  · intro n
    simp only [mathlib_factorial]
    split_ifs <;> rfl
  · intro n
    simp only [mathlib_fibonacci]
    split_ifs <;> rfl
  · intro n
    simp only [mathlib_is_prime]
    split_ifs <;> rfl
  · intro a s
    cases a with
    | none => rfl
    | some l =>
      simp only [mathlib_array_sum]
      split_ifs <;> rfl
  · intro a s
    cases a with
    | none => simp [mathlib_array_average, bump]
    | some l =>
      simp only [mathlib_array_average, mathlib_array_sum]
      split_ifs with h1 h2 <;> simp_all [bump] <;> omega
  · intro a s
    cases a with
    | none => rfl
    | some l =>
      simp only [mathlib_array_max]
      split_ifs <;> rfl
  · intro a s
    cases a with
    | none => rfl
    | some l =>
      simp only [mathlib_array_min]
      split_ifs <;> rfl
  · intro v f
    cases f <;> rfl
  · intro sq p1 p2
    cases p1 <;> cases p2 <;> rfl
  · intro sq ops
    exact runOps_call_count_le sq ops st

/-- Once `n ≥ 20` the loop bound `i <= n && i <= 20` no longer depends on
`n`: the factorial loop computes the same value as at `n = 20`. -/
lemma factLoop_cap (n : Int) (hn : 20 ≤ n) :
    ∀ (fuel : Nat) (i acc : Int),
      factLoop n fuel i acc = factLoop 20 fuel i acc := by
  intro fuel
  induction fuel with
  | zero => intro i acc; rfl
  | succ fuel ih =>
    intro i acc
    simp only [factLoop]
    by_cases h : i ≤ 20
    · rw [if_pos ⟨le_trans h hn, h⟩, if_pos ⟨h, h⟩, ih]
    · rw [if_neg (fun hc => h hc.2), if_neg (fun hc => h hc.2)]

/-- C6: `mathlib_factorial` returns `-1` for negative input, `1` for 0 and
1, and otherwise the product of the integers `2..min(n, 20)`, silently
capping inputs beyond 20; in particular `factorial(5) = 120` and
`factorial(21) = factorial(20)`. -/
theorem factorial_capped (n : Int) (st : LibState) :
    (n < 0 → (mathlib_factorial n st).1 = -1) ∧
    ((n = 0 ∨ n = 1) → (mathlib_factorial n st).1 = 1) ∧
    (2 ≤ n → (mathlib_factorial n st).1 =
      (Finset.Icc (2 : ℤ) (min n 20)).prod (fun i => i)) ∧
    (mathlib_factorial 5 st).1 = 120 ∧
    (mathlib_factorial 21 st).1 = (mathlib_factorial 20 st).1 := by
  refine ⟨?_, ?_, ?_, rfl, rfl⟩
  · intro h
    simp only [mathlib_factorial, if_pos h]
  · intro h
    simp only [mathlib_factorial, if_neg (show ¬ n < 0 by omega), if_pos h]
  · intro h
    simp only [mathlib_factorial, if_neg (show ¬ n < 0 by omega),
      if_neg (show ¬ (n = 0 ∨ n = 1) by omega)]
    rcases le_or_lt n 20 with h20 | h20
    · rw [min_eq_left h20]
      interval_cases n <;> decide
    · rw [min_eq_right (by omega : (20 : ℤ) ≤ n),
        factLoop_cap n (by omega)]
      decide

/-- Witness for C6 at `n = -1`, `n = 0` and `n = 5`. -/
theorem factorial_capped_witness :
    (mathlib_factorial (-1) ⟨12345, 0⟩).1 = -1 ∧
    (mathlib_factorial 0 ⟨12345, 0⟩).1 = 1 ∧
    (mathlib_factorial 5 ⟨12345, 0⟩).1 =
      (Finset.Icc (2 : ℤ) (min 5 20)).prod (fun i => i) :=
  ⟨(factorial_capped (-1) ⟨12345, 0⟩).1 (by decide),
   (factorial_capped 0 ⟨12345, 0⟩).2.1 (Or.inl rfl),
   (factorial_capped 5 ⟨12345, 0⟩).2.2.1 (by decide)⟩

/-- `wrap32` always lands at or below `INT_MAX` — this is why the C loop
guard `i * i <= n` can never fail for `n = INT_MAX` once the product
wraps. -/
lemma wrap32_le_intmax (x : Int) : wrap32 x ≤ 2147483647 := by
  unfold wrap32
  omega

/-- Soundness of the `6k±1` trial-division loop for `n < 46337²` (below the
first input whose guard product overflows): if the loop returns `true` (and
had enough fuel to run to natural termination), no divisor of the form
`6k±1` with square at most `n` exists at or beyond the current index.
While `i < 46337` the wrapped guard product equals the exact one; at
`i ≥ 46337` the conclusion is vacuous because `j ≥ i` and `j * j ≤ n`
are incompatible with `n < 46337²`. -/
lemma primeLoop_true_no_divisor (n : Int) (hn : n < 2147117569) :
    ∀ (fuel : Nat) (i : Int), 5 ≤ i → i % 6 = 5 →
      n < (i + 6 * fuel) * (i + 6 * fuel) →
      primeLoop n fuel i = true →
      ∀ j : Int, i ≤ j → j * j ≤ n → (j % 6 = 1 ∨ j % 6 = 5) → ¬ (j ∣ n) := by
  intro fuel
  induction fuel with
  | zero =>
    intro i hi5 _ hadq _ j hij hjj _ _
    have hsq : i * i ≤ j * j := mul_le_mul hij hij (by omega) (by omega)
    simp only [Nat.cast_zero, mul_zero, add_zero] at hadq
    linarith
  | succ fuel ih =>
    intro i hi5 hi6 hadq hloop j hij hjj hj6
    rcases le_or_lt 46337 i with hbig | hsmall
    · intro _
      have h1 : (46337 : ℤ) * 46337 ≤ j * j :=
        mul_le_mul (by omega) (by omega) (by omega) (by omega)
      norm_num at h1
      linarith
    · have hid : wrap32 (i * i) = i * i := by
        have h1 : i * i ≤ 46336 * 46336 :=
          mul_le_mul (by omega) (by omega) (by omega) (by omega)
        have h2 : 0 ≤ i * i := mul_nonneg (by omega) (by omega)
        norm_num at h1
        exact wrap32_eq_self _ (by omega) (by omega)
      simp only [primeLoop, hid] at hloop
      by_cases hii : i * i ≤ n
      · rw [if_pos hii] at hloop
        by_cases hdvd : n % i = 0 ∨ n % (i + 2) = 0
        · rw [if_pos hdvd] at hloop
          exact absurd hloop (by simp)
        · rw [if_neg hdvd] at hloop
          rcases lt_or_le j (i + 6) with hj | hj
          · have hcase : j = i ∨ j = i + 2 := by omega
            rcases hcase with rfl | rfl
            · exact fun hd => hdvd (Or.inl (Int.emod_eq_zero_of_dvd hd))
            · exact fun hd => hdvd (Or.inr (Int.emod_eq_zero_of_dvd hd))
          · push_cast at hadq
            have heq : i + 6 * ((fuel : ℤ) + 1)
                = (i + 6) + 6 * (fuel : ℤ) := by
              ring
            rw [heq] at hadq
            exact ih (i + 6) (by omega) (by omega) hadq hloop j hj hjj hj6
      · rw [if_neg hii] at hloop
        have hsq : i * i ≤ j * j := mul_le_mul hij hij (by omega) (by omega)
        linarith

/-- Completeness of the trial-division loop for `n < 46337²`: if it returns
`false`, `n` has a divisor strictly between 1 and `n`.  The index stays at
most 46337 as long as the (then exact) guard holds. -/
lemma primeLoop_false_divisor (n : Int) (hn : n < 2147117569) :
    ∀ (fuel : Nat) (i : Int), 5 ≤ i → i % 6 = 5 → i ≤ 46337 →
      primeLoop n fuel i = false →
      ∃ j : Int, 2 ≤ j ∧ j < n ∧ j ∣ n := by
  intro fuel
  induction fuel with
  | zero =>
    intro i _ _ _ h
    exact absurd h (by simp [primeLoop])
  | succ fuel ih =>
    intro i hi5 hi6 hile h
    have hid : wrap32 (i * i) = i * i := by
      have h1 : i * i ≤ 46337 * 46337 :=
        mul_le_mul (by omega) (by omega) (by omega) (by omega)
      have h2 : 0 ≤ i * i := mul_nonneg (by omega) (by omega)
      norm_num at h1
      exact wrap32_eq_self _ (by omega) (by omega)
    simp only [primeLoop, hid] at h
    by_cases hii : i * i ≤ n
    · rw [if_pos hii] at h
      by_cases hdvd : n % i = 0 ∨ n % (i + 2) = 0
      · rcases hdvd with hd | hd
        · exact ⟨i, by omega, by nlinarith, Int.dvd_of_emod_eq_zero hd⟩
        · exact ⟨i + 2, by omega, by nlinarith,
            Int.dvd_of_emod_eq_zero hd⟩
      · rw [if_neg hdvd] at h
        have hlt : i < 46337 := by
          by_contra hge
          push_neg at hge
          have hsq : (46337 : ℤ) * 46337 ≤ i * i :=
            mul_le_mul (by omega) (by omega) (by omega) (by omega)
          norm_num at hsq
          linarith
        exact ih (i + 6) (by omega) (by omega) (by omega) h
    · rw [if_neg hii] at h
      exact absurd h (by simp)

/-- For `n = INT_MAX = 2^31 − 1` the wrapped guard `wrap32 (i*i) ≤ n` can
never fail (every wrapped value is at most `INT_MAX`), so the loop marches
on until `i + 2 = n` fires the `n % (i+2) == 0` check and returns `false`
— even though `2^31 − 1` is prime. -/
lemma primeLoop_intmax_false :
    ∀ (fuel : Nat) (i : Int), 5 ≤ i → i % 6 = 5 → i ≤ 2147483645 →
      (2147483651 : ℤ) ≤ i + 6 * fuel →
      primeLoop 2147483647 fuel i = false := by
  intro fuel
  induction fuel with
  | zero =>
    intro i _ _ hle hadq
    exfalso
    simp only [Nat.cast_zero, mul_zero, add_zero] at hadq
    omega
  | succ fuel ih =>
    intro i hi5 hi6 hle hadq
    simp only [primeLoop]
    rw [if_pos (wrap32_le_intmax (i * i))]
    by_cases hd : (2147483647 : ℤ) % i = 0 ∨ (2147483647 : ℤ) % (i + 2) = 0
    · rw [if_pos hd]
    · rw [if_neg hd]
      have hne : i ≠ 2147483645 := by
        intro hcontra
        subst hcontra
        exact hd (Or.inr (by norm_num))
      exact ih (i + 6) (by omega) (by omega) (by omega) (by omega)

/-- A natural number at least 2 is prime iff it has no divisor `d ≥ 2` with
`d * d ≤ m`. -/
lemma prime_iff_no_small_divisor (m : ℕ) (h2 : 2 ≤ m) :
    m.Prime ↔ ∀ d : ℕ, 2 ≤ d → d * d ≤ m → ¬ d ∣ m := by
  constructor
  · intro hp d hd2 hdd hdvd
    rcases Nat.Prime.eq_one_or_self_of_dvd hp d hdvd with h | h
    · omega
    · subst h
      nlinarith
  · intro H
    by_contra hnp
    have hmf := Nat.minFac_dvd m
    have hmfp := Nat.minFac_prime (show m ≠ 1 by omega)
    have hsq : m.minFac ^ 2 ≤ m := Nat.minFac_sq_le_self (by omega) hnp
    rw [pow_two] at hsq
    exact H m.minFac hmfp.two_le hsq hmf

/-- C7: for every signed 32-bit integer `n` below `46337² = 2147117569`,
`mathlib_is_prime n` returns `true` exactly when `n` is a prime number (in
particular `is_prime 17` is `true` and `is_prime 18` is `false`); but from
`46337²` on the guard product `i * i` overflows 32-bit `int` (UB, modelled
as two's-complement wrap) and the function misclassifies: at the failing
input `n = 2147483647 = 2^31 − 1` it returns `false` although `2^31 − 1`
is prime, contradicting the claimed equivalence for that signed 32-bit
input. -/
theorem is_prime_correct :
    (∀ (n : Int) (st : LibState), n < 2147117569 →
      ((mathlib_is_prime n st).1 = true ↔ n.toNat.Prime)) ∧
    (∀ st : LibState, (mathlib_is_prime 17 st).1 = true) ∧
    (∀ st : LibState, (mathlib_is_prime 18 st).1 = false) ∧
    (∀ st : LibState, (mathlib_is_prime 2147483647 st).1 = false) ∧
    Nat.Prime 2147483647 := by
  refine ⟨?_, fun st => rfl, fun st => rfl, ?_, ?_⟩
  case refine_2 =>
    intro st
    rw [show (mathlib_is_prime 2147483647 st).1
        = primeLoop 2147483647 357913941 5 from by
      simp only [mathlib_is_prime,
        if_neg (show ¬ (2147483647 : ℤ) ≤ 1 by norm_num),
        if_neg (show ¬ (2147483647 : ℤ) ≤ 3 by norm_num),
        if_neg (show ¬ ((2147483647 : ℤ) % 2 = 0 ∨ (2147483647 : ℤ) % 3 = 0)
          by decide)]]
    exact primeLoop_intmax_false 357913941 5 (by norm_num) (by norm_num)
      (by norm_num) (by norm_num)
  case refine_3 =>
    have h : (mersenne 31).Prime :=
      lucas_lehmer_sufficiency _ (by norm_num) (by norm_num)
    rwa [show mersenne 31 = 2147483647 from rfl] at h
  intro n st hn
  rcases le_or_lt n 1 with h1 | h1
  · rw [show (mathlib_is_prime n st).1 = false from by
      simp only [mathlib_is_prime, if_pos h1]]
    simp only [Bool.false_eq_true, false_iff]
    intro hp
    have := hp.two_le
    omega
  · rcases le_or_lt n 3 with h3 | h3
    · have h23 : n = 2 ∨ n = 3 := by omega
      rw [show (mathlib_is_prime n st).1 = true from by
        simp only [mathlib_is_prime, if_neg (show ¬ n ≤ 1 by omega),
          if_pos h3]]
      simp only [true_iff]
      rcases h23 with rfl | rfl
      · decide
      · decide
    · by_cases h23 : n % 2 = 0 ∨ n % 3 = 0
      · rw [show (mathlib_is_prime n st).1 = false from by
          simp only [mathlib_is_prime, if_neg (show ¬ n ≤ 1 by omega),
            if_neg (show ¬ n ≤ 3 by omega), if_pos h23]]
        simp only [Bool.false_eq_true, false_iff]
        intro hp
        rcases h23 with h2 | h2
        · have hd : (2 : ℤ) ∣ n := Int.dvd_of_emod_eq_zero h2
          have hdN : (2 : ℕ) ∣ n.toNat := by
            have : ((2 : ℕ) : ℤ) ∣ ((n.toNat : ℕ) : ℤ) := by
              rw [Int.toNat_of_nonneg (show (0:ℤ) ≤ n by omega)]
              exact_mod_cast hd
            exact_mod_cast this
          rcases Nat.Prime.eq_one_or_self_of_dvd hp 2 hdN with h | h <;> omega
        · have hd : (3 : ℤ) ∣ n := Int.dvd_of_emod_eq_zero h2
          have hdN : (3 : ℕ) ∣ n.toNat := by
            have : ((3 : ℕ) : ℤ) ∣ ((n.toNat : ℕ) : ℤ) := by
              rw [Int.toNat_of_nonneg (show (0:ℤ) ≤ n by omega)]
              exact_mod_cast hd
            exact_mod_cast this
          rcases Nat.Prime.eq_one_or_self_of_dvd hp 3 hdN with h | h <;> omega
      · rw [show (mathlib_is_prime n st).1 = primeLoop n 357913941 5 from by
          simp only [mathlib_is_prime, if_neg (show ¬ n ≤ 1 by omega),
            if_neg (show ¬ n ≤ 3 by omega), if_neg h23]]
        have hn0 : (0 : ℤ) ≤ n := by omega
        constructor
        · intro hloop
          have hnd := primeLoop_true_no_divisor n hn 357913941 5 (by norm_num)
            (by norm_num)
            (by push_cast; omega) hloop
          refine (prime_iff_no_small_divisor n.toNat (by omega)).mpr ?_
          intro d hd2 hdd hdvd
          have hdvdZ : (d : ℤ) ∣ n := by
            have : ((d : ℕ) : ℤ) ∣ ((n.toNat : ℕ) : ℤ) :=
              Int.natCast_dvd_natCast.mpr hdvd
            rwa [Int.toNat_of_nonneg hn0] at this
          have hddZ : (d : ℤ) * (d : ℤ) ≤ n := by
            have : (((d * d : ℕ)) : ℤ) ≤ ((n.toNat : ℕ) : ℤ) :=
              Int.ofNat_le.mpr hdd
            rw [Int.toNat_of_nonneg hn0] at this
            push_cast at this
            exact this
          by_cases h2d : 2 ∣ d
          · have : (2 : ℤ) ∣ n :=
              dvd_trans (by exact_mod_cast Int.natCast_dvd_natCast.mpr h2d)
                hdvdZ
            exact h23 (Or.inl (Int.emod_eq_zero_of_dvd this))
          · by_cases h3d : 3 ∣ d
            · have : (3 : ℤ) ∣ n :=
                dvd_trans
                  (by exact_mod_cast Int.natCast_dvd_natCast.mpr h3d) hdvdZ
              exact h23 (Or.inr (Int.emod_eq_zero_of_dvd this))
            · have hj6 : (d : ℤ) % 6 = 1 ∨ (d : ℤ) % 6 = 5 := by omega
              have hj5 : (5 : ℤ) ≤ (d : ℤ) := by omega
              exact hnd (d : ℤ) hj5 hddZ hj6 hdvdZ
        · intro hp
          by_contra hfalse
          have hloopf : primeLoop n 357913941 5 = false :=
            Bool.eq_false_iff.mpr hfalse
          obtain ⟨j, hj2, hjn, hjd⟩ :=
            primeLoop_false_divisor n hn 357913941 5 (by norm_num)
              (by norm_num) (by norm_num) hloopf
          have hdN : j.toNat ∣ n.toNat := by
            have : ((j.toNat : ℕ) : ℤ) ∣ ((n.toNat : ℕ) : ℤ) := by
              rw [Int.toNat_of_nonneg (show (0:ℤ) ≤ j by omega),
                Int.toNat_of_nonneg hn0]
              exact hjd
            exact_mod_cast this
          rcases Nat.Prime.eq_one_or_self_of_dvd hp j.toNat hdN with h | h <;>
            omega

/-- Witness for C7 at `n = 17`. -/
theorem is_prime_correct_witness :
    (mathlib_is_prime 17 ⟨12345, 0⟩).1 = true ↔ (17 : ℤ).toNat.Prime :=
  is_prime_correct.1 17 ⟨12345, 0⟩ (by decide)

end MathlibC
